import Mathlib

/-!
Verification development for the columnar storage engine specified for this
repository (RNTuple-style Model / Entry / Writer / Reader), and for the
RooFit pythonization helpers `DataError` and `Format` found in
`bindings/pyroot/pythonizations/python/ROOT/_pythonization/_roofit/_rooglobalfunc.py`.

The storage engine's implementation is not part of the visible sources (only
its Python smoke test `tree/ntuple/v7/test/ntuple_basics.py` is), so the
engine below, in namespace `RNT`, is modelled from the specification's
contract: schema Model, per-row Entry, Writer with buffered pages and a
footer written last, Reader reconstructing the Model from the footer and
supporting random access.
-/

namespace RNT

/-- Modelled from the spec: the closed set of logical field types of the
Field Type Registry.  The claims under verification only exercise integer
fields (the smoke test writes one `"int"` field); the boolean tag is kept to
make the tagged-union structure visible.  Floating widths, strings and
nested struct/collection types of the spec's closed set are omitted: no
claim mentions them and the spec leaves their encoding as an open question. -/
inductive TypeTag where
  | tInt
  | tBool
deriving DecidableEq, Repr

/-- Modelled from the spec: a runtime value of the tagged union over the
closed type set, as staged in an Entry slot. -/
inductive Value where
  | vInt (i : Int)
  | vBool (b : Bool)
deriving DecidableEq, Repr

instance : Inhabited Value := ⟨Value.vInt 0⟩

/-- The runtime type tag of a staged value. -/
def Value.tag : Value → TypeTag
  | .vInt _ => .tInt
  | .vBool _ => .tBool

/-- Modelled from the spec: the default value a freshly created Entry slot
holds for a field of the given type, before any `set` or `load`. -/
def TypeTag.defaultValue : TypeTag → Value
  | .tInt => .vInt 0
  | .tBool => .vBool false

/-- Modelled from the spec: the error taxonomy (SchemaError, StateError,
StorageError, RangeError constructors flattened into one closed set). -/
inductive EngineError where
  | duplicateField
  | frozenModel
  | unknownType
  | unknownField
  | typeMismatch
  | modelNotFrozen
  | alreadyFinalized
  | modelMismatch
  | storageUnavailable
  | ioFailure
  | notFound
  | corruptFooter
  | outOfRange
deriving DecidableEq, Repr

/-- Modelled from the spec: the Field Type Registry, a pure lookup from a
declared logical type name to a type descriptor; fails with `UnknownType`
for names outside the closed set. -/
def resolveType : String → Except EngineError TypeTag
  | "int" => .ok .tInt
  | "bool" => .ok .tBool
  | _ => .error .unknownType

/-- Modelled from the spec: a Field of a Model: unique name, logical type
tag, and the column identifier assigned when the field is added. -/
structure Field where
  name : String
  typ : TypeTag
  colId : Nat
deriving DecidableEq, Repr

instance : Inhabited Field := ⟨⟨"", .tInt, 0⟩⟩

/-- Modelled from the spec: a Model is an ordered set of Fields plus the
frozen flag; built incrementally by `addField`, then frozen, after which it
is immutable. -/
structure Model where
  fields : List Field
  frozen : Bool
deriving DecidableEq, Repr

/-- Modelled from the spec: `addField(name, type_name)` fails with
`FrozenModel` after freeze, with `UnknownType` for an unregistered type
name, and with `DuplicateField` when the name is already present; otherwise
it appends the Field and assigns it the next column identifier. -/
def Model.addField (m : Model) (nm : String) (typeName : String) : Except EngineError Model :=
  if m.frozen then .error .frozenModel
  else
    match resolveType typeName with
    | .error e => .error e
    | .ok tag =>
      if m.fields.any (fun f => f.name = nm) then .error .duplicateField
      else .ok { m with fields := m.fields ++ [⟨nm, tag, m.fields.length⟩] }

/-- Modelled from the spec: `freeze()` makes the Model immutable; the
idempotent-no-op variant of the contract is chosen. -/
def Model.freeze (m : Model) : Model :=
  { m with frozen := true }

/-- Byte-level encoding helper: little-endian base-256 digits of `n`, with
zero encoded as the empty digit list.  The first argument is recursion
fuel; `encodeNatBytes` instantiates it with `n` itself, which is enough
because the digit count of `n` never exceeds `n`. -/
def natDigits : Nat → Nat → List Nat
  | 0, _ => []
  | f + 1, n => if n = 0 then [] else n % 256 :: natDigits f (n / 256)

/-- Little-endian base-256 digits of a natural number. -/
def encodeNatBytes (n : Nat) : List Nat :=
  natDigits n n

/-- Decode little-endian base-256 digits back to a natural number. -/
def decodeNatBytes : List Nat → Nat
  | [] => 0
  | b :: bs => b + 256 * decodeNatBytes bs

/-- Modelled from the spec: the Registry's encode function for a single
value — a sign-prefixed base-256 magnitude for integers, a single byte for
booleans.  Page lengths are recorded in the footer's offset table, so the
encoding need not be self-delimiting. -/
def encodeValue : Value → List Nat
  | .vInt i => if i < 0 then 1 :: encodeNatBytes i.natAbs else 0 :: encodeNatBytes i.toNat
  | .vBool b => [if b then 1 else 0]

/-- Modelled from the spec: the Registry's decode function for a single
value, driven by the field's type tag; fails on a malformed page slice. -/
def decodeValue : TypeTag → List Nat → Option Value
  | .tInt, s :: ds =>
    some (.vInt (if s = 1 then -(decodeNatBytes ds : Int) else (decodeNatBytes ds : Int)))
  | .tInt, [] => none
  | .tBool, [b] => some (.vBool (b = 1))
  | .tBool, _ => none

/-- Modelled from the spec: an Entry is a per-row staging object bound to a
frozen Model, with one value slot per field, in field order. -/
structure Entry where
  model : Model
  slots : List Value
deriving DecidableEq, Repr

/-- Modelled from the spec: `createEntry()` is valid only on a frozen Model;
slots are sized once to the Model's field count and initialised to each
field type's default value. -/
def Model.createEntry (m : Model) : Except EngineError Entry :=
  if m.frozen then .ok ⟨m, m.fields.map (fun f => f.typ.defaultValue)⟩
  else .error .modelNotFrozen

/-- Modelled from the spec: `set(fieldName, value)` fails with
`UnknownField` when the name is not in the bound Model and with
`TypeMismatch` when the value's runtime type does not match the Field's
type tag; otherwise it stores the value in the field's slot. -/
def Entry.set (e : Entry) (nm : String) (v : Value) : Except EngineError Entry :=
  match e.model.fields.findIdx? (fun f => f.name = nm) with
  | none => .error .unknownField
  | some i =>
    match e.model.fields[i]? with
    | none => .error .unknownField
    | some f =>
      if v.tag = f.typ then .ok { e with slots := e.slots.set i v }
      else .error .typeMismatch

/-- Modelled from the spec: `get(fieldName)` fails with `UnknownField` when
the name is not in the bound Model; otherwise it returns the currently
staged or loaded value of the field's slot. -/
def Entry.get (e : Entry) (nm : String) : Except EngineError Value :=
  match e.model.fields.findIdx? (fun f => f.name = nm) with
  | none => .error .unknownField
  | some i =>
    match e.slots[i]? with
    | some v => .ok v
    | none => .error .unknownField

/-- Well-typedness of one staged row against a Model: one slot per field,
and every slot's runtime tag matches its field's type tag. -/
def rowTyped (m : Model) (row : List Value) : Bool :=
  row.length == m.fields.length &&
    (row.zip m.fields).all (fun p => p.1.tag == p.2.typ)

/-- Well-typedness of an Entry: one slot per field of the bound Model, and
every slot's runtime tag matches its field's type tag.  `createEntry` and
`set` preserve this; the round-trip theorems assume it of filled entries. -/
def Entry.typed (e : Entry) : Bool :=
  rowTyped e.model e.slots

/-- Modelled from the spec: the Writer's lifecycle states
(`Open` → `Finalized` → `Closed`). -/
inductive WState where
  | wOpen
  | wFinalized
  | wClosed
deriving DecidableEq, Repr

/-- Modelled from the spec: the storage footer, written last: the Model
description (ordered field names and type tags), the per-column page
offset/length table, and the total row count. -/
structure Footer where
  fieldsDesc : List (String × TypeTag)
  colTable : List (List (Nat × Nat))
  nEntries : Nat
deriving DecidableEq, Repr

/-- Modelled from the spec: the persistent storage medium's state for one
dataset: the per-column data page bytes, and the footer once (and only
once) finalization has written it.  A file whose footer is absent is
detectably incomplete. -/
structure Store where
  columnData : List (List Nat)
  footer : Option Footer
deriving DecidableEq, Repr

/-- A store is complete exactly when the footer has been written. -/
def Store.isComplete (s : Store) : Bool :=
  s.footer.isSome

/-- Modelled from the spec: the Writer appends Entries as rows; rows are
buffered until flushed, and the storage path / dataset name identify the
external medium (exclusivity of the path is the medium's concern and is not
modelled).  The buffering policy chosen here is the simplest one the spec
permits: pages are flushed by `finalize` (or by `close`, which finalizes),
before the footer is written. -/
structure Writer where
  model : Model
  st : WState
  rows : List (List Value)
deriving DecidableEq, Repr

/-- Modelled from the spec: `create(model, datasetName, storagePath)` fails
with `ModelNotFrozen` on an unfrozen model; otherwise it yields an `Open`
Writer with no buffered rows and a fresh, incomplete store. -/
def writerCreate (m : Model) (_datasetName _storagePath : String) :
    Except EngineError (Writer × Store) :=
  if m.frozen then .ok (⟨m, .wOpen, []⟩, ⟨[], none⟩)
  else .error .modelNotFrozen

/-- Modelled from the spec: `fill(entry)` requires an `Open` writer and an
entry bound to the writer's Model (`ModelMismatch` otherwise); it appends
the entry's staged values as one row and leaves the store untouched (the
chosen buffering policy flushes at finalize). -/
def Writer.fill (w : Writer) (e : Entry) (s : Store) :
    Except EngineError (Writer × Store) :=
  if w.st ≠ .wOpen then .error .alreadyFinalized
  else if e.model ≠ w.model then .error .modelMismatch
  else .ok ({ w with rows := w.rows ++ [e.slots] }, s)

/-- Fill a sequence of entries in order. -/
def Writer.fillAll (w : Writer) (es : List Entry) (s : Store) :
    Except EngineError (Writer × Store) :=
  match es with
  | [] => .ok (w, s)
  | e :: rest =>
    match w.fill e s with
    | .error err => .error err
    | .ok (w', s') => w'.fillAll rest s'

/-- Lay out one column: concatenate the encodings of the column's values,
starting at byte offset `off`, and record one (offset, length) page entry
per value. -/
def buildCol : List Value → Nat → List Nat × List (Nat × Nat)
  | [], _ => ([], [])
  | v :: vs, off =>
    let enc := encodeValue v
    let rest := buildCol vs (off + enc.length)
    (enc ++ rest.1, (off, enc.length) :: rest.2)

/-- The values of column `j`, in row order. -/
def colValues (rows : List (List Value)) (j : Nat) : List Value :=
  rows.map (fun r => r.getD j default)

/-- Modelled from the spec: flush all buffered data pages of every column
to storage.  This step writes no footer: a write interrupted here is
detectably incomplete. -/
def Writer.flushPages (w : Writer) (s : Store) : Store :=
  { s with
    columnData :=
      (List.range w.model.fields.length).map (fun j => (buildCol (colValues w.rows j) 0).1) }

/-- Modelled from the spec: write the footer — Model description, per-column
page offset table, and row count — after the data pages. -/
def Writer.writeFooter (w : Writer) (s : Store) : Store :=
  { s with
    footer := some
      ⟨w.model.fields.map (fun f => (f.name, f.typ)),
       (List.range w.model.fields.length).map (fun j => (buildCol (colValues w.rows j) 0).2),
       w.rows.length⟩ }

/-- Modelled from the spec: `finalize()` flushes all remaining buffered
pages, then writes the footer, and transitions the Writer to `Finalized`;
a second finalize fails with `AlreadyFinalized` and leaves the store
untouched. -/
def Writer.finalize (w : Writer) (s : Store) : Except EngineError Writer × Store :=
  match w.st with
  | .wOpen => (.ok { w with st := .wFinalized }, w.writeFooter (w.flushPages s))
  | _ => (.error .alreadyFinalized, s)

/-- Modelled from the spec: closing (or destroying) a Writer finalizes it
when it is still `Open` and is a no-op otherwise (close is idempotent).
The release of the underlying storage handle (`Closed`) is external and not
modelled beyond the state tag. -/
def Writer.close (w : Writer) (s : Store) : Writer × Store :=
  match w.st with
  | .wOpen =>
    match w.finalize s with
    | (.ok w', s') => (w', s')
    | (.error _, s') => (w, s')
  | _ => (w, s)

/-- Modelled from the spec: the Reader's reconstruction of the frozen Model
from the footer's ordered (name, type tag) description; column identifiers
are reassigned in order, as `addField` would. -/
def reconstructModel (ft : Footer) : Model :=
  ⟨ft.fieldsDesc.enum.map (fun p => ⟨p.2.1, p.2.2, p.1⟩), true⟩

/-- Consistency of a footer against the on-disk column data: one offset
table per described field, one column data stream per described field, one
page per row in every column, and every page within its column's bounds. -/
def Footer.consistent (ft : Footer) (cols : List (List Nat)) : Bool :=
  (ft.colTable.length == ft.fieldsDesc.length) &&
    (cols.length == ft.fieldsDesc.length) &&
    ft.colTable.all (fun tbl => tbl.length == ft.nEntries) &&
    (ft.colTable.zip cols).all (fun p => p.1.all (fun pg => pg.1 + pg.2 ≤ p.2.length))

/-- Modelled from the spec: a Reader holds the reconstructed frozen Model,
the column data, the footer's offset tables, and the row count. -/
structure Reader where
  model : Model
  colData : List (List Nat)
  colTable : List (List (Nat × Nat))
  nRows : Nat
deriving DecidableEq, Repr

/-- Modelled from the spec: `open(datasetName, storagePath)` fails with
`NotFound` when the store holds no finalized dataset (no footer), with
`CorruptFooter` when the footer is inconsistent with the on-disk page data,
and otherwise reconstructs the frozen Model and exposes the row count. -/
def readerOpen (s : Store) : Except EngineError Reader :=
  match s.footer with
  | none => .error .notFound
  | some ft =>
    if ft.consistent s.columnData then
      .ok ⟨reconstructModel ft, s.columnData, ft.colTable, ft.nEntries⟩
    else .error .corruptFooter

/-- Modelled from the spec: `getNEntries()` returns the dataset's row
count. -/
def Reader.getNEntries (r : Reader) : Nat :=
  r.nRows

/-- Modelled from the spec: `getModel()` returns the reconstructed frozen
Model. -/
def Reader.getModel (r : Reader) : Model :=
  r.model

/-- Collect a list of optional values, failing when any is `none`. -/
def collectSome : List (Option Value) → Option (List Value)
  | [] => some []
  | none :: _ => none
  | some v :: rest => (collectSome rest).map (fun vs => v :: vs)

/-- Modelled from the spec: `loadEntry(rowIndex, entry)` fails with
`OutOfRange` when `rowIndex >=` row count and with `ModelMismatch` when the
entry is bound to a different Model; otherwise it decodes, for every field,
the value at `rowIndex` from that field's column pages into the entry's
slot.  Access is by the footer's offset table, hence random. -/
def Reader.loadEntry (r : Reader) (rowIndex : Nat) (e : Entry) :
    Except EngineError Entry :=
  if r.nRows ≤ rowIndex then .error .outOfRange
  else if e.model ≠ r.model then .error .modelMismatch
  else
    let decoded := (List.range r.model.fields.length).map (fun j =>
      let data := r.colData.getD j []
      let page := (r.colTable.getD j []).getD rowIndex (0, 0)
      decodeValue ((r.model.fields.getD j default).typ) ((data.drop page.1).take page.2))
    match collectSome decoded with
    | none => .error .corruptFooter
    | some vs => .ok { e with slots := vs }

instance : Inhabited Entry := ⟨⟨⟨[], false⟩, []⟩⟩

/-- The store produced by finalizing an `Open` writer over Model `m` with
buffered rows `rows`: per-column concatenated pages, and the footer. -/
def finalStore (m : Model) (rows : List (List Value)) : Store :=
  ⟨(List.range m.fields.length).map (fun j => (buildCol (colValues rows j) 0).1),
   some
     ⟨m.fields.map (fun f => (f.name, f.typ)),
      (List.range m.fields.length).map (fun j => (buildCol (colValues rows j) 0).2),
      rows.length⟩⟩

/-- The reader obtained by opening `finalStore m rows`. -/
def finalReader (m : Model) (rows : List (List Value)) : Reader :=
  ⟨reconstructModel
     ⟨m.fields.map (fun f => (f.name, f.typ)),
      (List.range m.fields.length).map (fun j => (buildCol (colValues rows j) 0).2),
      rows.length⟩,
   (List.range m.fields.length).map (fun j => (buildCol (colValues rows j) 0).1),
   (List.range m.fields.length).map (fun j => (buildCol (colValues rows j) 0).2),
   rows.length⟩

/-- The concrete Model of the smoke test: one integer field named `"f"`,
frozen (the value `Model.freeze` and `addField` produce from scratch). -/
def fModel : Model := ⟨[⟨"f", .tInt, 0⟩], true⟩

/-- The concrete Entry of the smoke test: `f` set to 42. -/
def fEntry : Entry := ⟨fModel, [.vInt 42]⟩

end RNT

namespace RooFitPy

/-- Modelled from the spec: `ROOT.RooAbsData.ErrorType` is an external enum
not present in the sources; its member names are taken from `DataError`'s
own docstring and error message in `_rooglobalfunc.py` ("Poisson", "SumW2",
"Auto", "Expected", and None). -/
inductive ErrorType where
  | Poisson
  | SumW2
  | None
  | Auto
  | Expected
deriving DecidableEq, Repr

/-- The Python value passed to `DataError`: `None`, a string, or an already
resolved enum value. -/
inductive PyArg where
  | pyNone
  | pyStr (s : String)
  | pyEnum (e : ErrorType)
deriving DecidableEq, Repr

/-- The Python exception `DataError` can raise. -/
inductive PyError where
  | valueError (msg : String)
deriving DecidableEq, Repr

/-- The exact message of the `ValueError` raised by `DataError` (the two
concatenated string literals of the source). -/
def dataErrorMessage : String :=
  "Unsupported error type type passed to DataError(). Supported decay types are : \"Poisson\", \"SumW2\", \"Auto\", \"Expected\", and None."

/-- `getattr(ROOT.RooAbsData.ErrorType, s)`: resolve an enum member by
name; `Option.none` models the `AttributeError` case. -/
def errorTypeFromName (s : String) : Option ErrorType :=
  if s = "Poisson" then some ErrorType.Poisson
  else if s = "SumW2" then some ErrorType.SumW2
  else if s = "None" then some ErrorType.None
  else if s = "Auto" then some ErrorType.Auto
  else if s = "Expected" then some ErrorType.Expected
  else Option.none

/-- The argument after `DataError`'s `None`-to-`"None"` normalization step
(`if etype is None: etype = "None"`): either a string still to be resolved,
or an enum value passed through. -/
inductive ResolvedArg where
  | rStr (s : String)
  | rEnum (e : ErrorType)
deriving DecidableEq, Repr

/-- The normalization step of `DataError`: a `None` argument becomes the
string `"None"`; strings and enum values pass through. -/
def normalizeDataError : PyArg → ResolvedArg
  | .pyNone => .rStr "None"
  | .pyStr s => .rStr s
  | .pyEnum e => .rEnum e

/-- `DataError` from `_rooglobalfunc.py`: maps `None` to `"None"`, resolves
a string against `ROOT.RooAbsData.ErrorType` (raising `ValueError` when the
lookup fails with `AttributeError`), and returns the resolved enum value —
the `etype` handed to the external `RooFit._DataError`, which determines
the returned `RooCmdArg`. -/
def DataError (a : PyArg) : Except PyError ErrorType :=
  match normalizeDataError a with
  | .rStr s =>
    match errorTypeFromName s with
    | some e => .ok e
    | Option.none => .error (.valueError dataErrorMessage)
  | .rEnum e => .ok e

/-- `Format` from `_rooglobalfunc.py`, modelled up to its delegation
boundary: when the keyword `what` is present its value is prepended to the
positional arguments and the keyword is deleted; the function returns the
(args, kwargs) pair that both call paths then hand unchanged to the
external `_kwargs_to_roocmdargs` / `RooFit._Format`.  Keyword arguments are
an association list with unique keys, as a Python dict. -/
def Format {α : Type} (args : List α) (kwargs : List (String × α)) :
    List α × List (String × α) :=
  match List.lookup "what" kwargs with
  | some w => (w :: args, kwargs.eraseP (fun p => p.1 == "what"))
  | Option.none => (args, kwargs)

end RooFitPy

namespace RNT

theorem decodeNatBytes_natDigits (fuel n : Nat) (h : n ≤ fuel) :
    decodeNatBytes (natDigits fuel n) = n := by
  induction fuel generalizing n with
  | zero =>
    have h0 : n = 0 := Nat.le_zero.mp h
    subst h0
    simp [natDigits, decodeNatBytes]
  | succ f ih =>
    by_cases hn : n = 0
    · simp [natDigits, hn, decodeNatBytes]
    · have hdiv : n / 256 ≤ f := by
        have : n / 256 < n := Nat.div_lt_self (Nat.pos_of_ne_zero hn) (by omega)
        omega
      simp only [natDigits, hn, if_false, decodeNatBytes, ih _ hdiv]
      omega

theorem decode_encodeNatBytes (n : Nat) : decodeNatBytes (encodeNatBytes n) = n :=
  decodeNatBytes_natDigits n n (Nat.le_refl n)

/-- Decoding inverts encoding for every value, at the value's own tag. -/
theorem decode_encodeValue (v : Value) : decodeValue v.tag (encodeValue v) = some v := by
  cases v with
  | vInt i =>
    by_cases hi : i < 0
    · simp only [Value.tag, encodeValue, if_pos hi, decodeValue, if_true,
        eq_self_iff_true, decode_encodeNatBytes, Option.some.injEq, Value.vInt.injEq]
      omega
    · have h1 : ¬ ((0 : Nat) = 1) := by omega
      simp only [Value.tag, encodeValue, if_neg hi, decodeValue, h1, if_false,
        decode_encodeNatBytes, Option.some.injEq, Value.vInt.injEq]
      omega
  | vBool b => cases b <;> simp [Value.tag, encodeValue, decodeValue]

theorem buildCol_snd_length (vs : List Value) (off : Nat) :
    (buildCol vs off).2.length = vs.length := by
  induction vs generalizing off with
  | nil => rfl
  | cons v vs ih => simp [buildCol, ih]

theorem buildCol_snd_bound (vs : List Value) (off : Nat) :
    ∀ p ∈ (buildCol vs off).2, p.1 + p.2 ≤ off + (buildCol vs off).1.length := by
  induction vs generalizing off with
  | nil => intro p hp; simp [buildCol] at hp
  | cons v vs ih =>
    intro p hp
    simp only [buildCol, List.mem_cons] at hp
    rcases hp with h | h
    · subst h
      simp [buildCol, List.length_append]
    · have hb := ih (off + (encodeValue v).length) p h
      simp only [buildCol, List.length_append] at hb ⊢
      omega

theorem buildCol_slice (vs : List Value) :
    ∀ (pre : List Nat) (i : Nat), i < vs.length →
      ((pre ++ (buildCol vs pre.length).1).drop
          ((buildCol vs pre.length).2.getD i (0, 0)).1).take
          ((buildCol vs pre.length).2.getD i (0, 0)).2
        = encodeValue (vs.getD i default) := by
  induction vs with
  | nil =>
    intro pre i hi
    simp at hi
  | cons v vs ih =>
    intro pre i hi
    cases i with
    | zero =>
      simp only [buildCol, List.getD_cons_zero]
      rw [List.drop_left, List.take_left]
    | succ i =>
      have hi2 : i < vs.length := by simpa using hi
      have := ih (pre ++ encodeValue v) i hi2
      simp only [buildCol, List.getD_cons_succ]
      rw [← List.append_assoc] at *
      simpa [List.length_append] using this

theorem getD_map_range {α : Type} (f : Nat → α) (n j : Nat) (d : α) (h : j < n) :
    ((List.range n).map f).getD j d = f j := by
  have hj : j < ((List.range n).map f).length := by simpa using h
  rw [List.getD_eq_getElem _ _ hj, List.getElem_map, List.getElem_range]

theorem range_map_getD (l : List Value) :
    (List.range l.length).map (fun j => l.getD j default) = l := by
  apply List.ext_getElem
  · simp
  · intro i h1 h2
    simp only [List.getElem_map, List.getElem_range]
    rw [List.getD_eq_getElem _ _ h2]

theorem mapGetD {α β : Type} (f : α → β) (l : List α) (j : Nat) (d : α)
    (h : j < l.length) :
    (l.map f).getD j (f d) = f (l.getD j d) := by
  have hj : j < (l.map f).length := by simpa using h
  rw [List.getD_eq_getElem _ _ hj, List.getElem_map, List.getD_eq_getElem _ _ h]

theorem collectSome_map_some (l : List Value) : collectSome (l.map some) = some l := by
  induction l with
  | nil => rfl
  | cons v vs ih => simp [collectSome, ih]

theorem colValues_getD (rows : List (List Value)) (i j : Nat) (h : i < rows.length) :
    (colValues rows j).getD i default = (rows.getD i []).getD j default := by
  have := mapGetD (fun r : List Value => r.getD j default) rows i [] h
  simpa [colValues] using this

theorem rowTyped_length {m : Model} {row : List Value} (h : rowTyped m row = true) :
    row.length = m.fields.length := by
  simp only [rowTyped, Bool.and_eq_true, beq_iff_eq] at h
  exact h.1

theorem rowTyped_tag {m : Model} {row : List Value} (h : rowTyped m row = true)
    (j : Nat) (hj : j < m.fields.length) :
    (row.getD j default).tag = (m.fields.getD j default).typ := by
  have hlen := rowTyped_length h
  simp only [rowTyped, Bool.and_eq_true, beq_iff_eq, List.all_eq_true] at h
  have hj2 : j < (row.zip m.fields).length := by
    simp [List.length_zip, hlen]
    omega
  have hmem : (row.zip m.fields)[j] ∈ row.zip m.fields := List.getElem_mem hj2
  have htag := h.2 _ hmem
  rw [List.getElem_zip] at htag
  simp only [beq_iff_eq] at htag
  have hjr : j < row.length := by omega
  rw [List.getD_eq_getElem _ _ hjr, List.getD_eq_getElem _ _ hj]
  exact htag

theorem writerCreate_frozen (m : Model) (dn sp : String) (hm : m.frozen = true) :
    writerCreate m dn sp = .ok (⟨m, .wOpen, []⟩, ⟨[], none⟩) := by
  simp [writerCreate, hm]

theorem fill_run (m : Model) (rows : List (List Value)) (e : Entry) (s : Store)
    (he : e.model = m) :
    Writer.fill ⟨m, .wOpen, rows⟩ e s = .ok (⟨m, .wOpen, rows ++ [e.slots]⟩, s) := by
  simp [Writer.fill, he]

theorem fillAll_run (m : Model) (es : List Entry) (rows : List (List Value)) (s : Store)
    (hb : ∀ e ∈ es, e.model = m) :
    Writer.fillAll ⟨m, .wOpen, rows⟩ es s
      = .ok (⟨m, .wOpen, rows ++ es.map (fun e => e.slots)⟩, s) := by
  induction es generalizing rows with
  | nil => simp [Writer.fillAll]
  | cons e es ih =>
    have he : e.model = m := hb e (List.mem_cons_self _ _)
    rw [Writer.fillAll, fill_run m rows e s he]
    have step := ih (rows ++ [e.slots]) (fun x hx => hb x (List.mem_cons_of_mem _ hx))
    rw [show (rows ++ [e.slots]) ++ es.map (fun e => e.slots)
          = rows ++ (e :: es).map (fun e => e.slots) by simp] at step
    exact step

theorem finalize_run (m : Model) (rows : List (List Value)) (s : Store) :
    Writer.finalize ⟨m, .wOpen, rows⟩ s
      = (.ok ⟨m, .wFinalized, rows⟩, finalStore m rows) := rfl

theorem finalFooter_consistent (m : Model) (rows : List (List Value)) :
    Footer.consistent
      ⟨m.fields.map (fun f => (f.name, f.typ)),
       (List.range m.fields.length).map (fun j => (buildCol (colValues rows j) 0).2),
       rows.length⟩
      ((List.range m.fields.length).map (fun j => (buildCol (colValues rows j) 0).1))
      = true := by
  simp only [Footer.consistent, Bool.and_eq_true, beq_iff_eq, List.all_eq_true,
    List.length_map, List.length_range]
  refine ⟨⟨⟨trivial, trivial⟩, ?_⟩, ?_⟩
  · intro tbl htbl
    obtain ⟨j, hj, rfl⟩ := List.mem_map.mp htbl
    simp [buildCol_snd_length, colValues]
  · intro p hp
    rw [List.zip_map'] at hp
    obtain ⟨j, hj, rfl⟩ := List.mem_map.mp hp
    intro pg hpg
    simp only [decide_eq_true_eq]
    have := buildCol_snd_bound (colValues rows j) 0 pg hpg
    simpa using this

theorem readerOpen_final (m : Model) (rows : List (List Value)) :
    readerOpen (finalStore m rows) = .ok (finalReader m rows) := by
  unfold finalStore readerOpen
  dsimp only
  rw [finalFooter_consistent]
  rfl

theorem finalReader_model_desc (m : Model) (rows : List (List Value)) :
    (finalReader m rows).model.fields.map (fun f => (f.name, f.typ))
      = m.fields.map (fun f => (f.name, f.typ)) := by
  simp only [finalReader, reconstructModel]
  rw [List.map_map]
  have hcomp :
      ((fun f : Field => (f.name, f.typ)) ∘
        (fun p : Nat × (String × TypeTag) => Field.mk p.2.1 p.2.2 p.1))
      = Prod.snd := by
    funext p
    rfl
  rw [hcomp, List.enum_map_snd]

theorem finalReader_frozen (m : Model) (rows : List (List Value)) :
    (finalReader m rows).model.frozen = true := rfl

theorem finalReader_fields_length (m : Model) (rows : List (List Value)) :
    (finalReader m rows).model.fields.length = m.fields.length := by
  simp [finalReader, reconstructModel]

theorem finalReader_typ (m : Model) (rows : List (List Value)) (j : Nat)
    (hj : j < m.fields.length) :
    ((finalReader m rows).model.fields.getD j default).typ
      = (m.fields.getD j default).typ := by
  have hdesc := finalReader_model_desc m rows
  have hlen := finalReader_fields_length m rows
  have hj1 : j < (finalReader m rows).model.fields.length := by omega
  have hq := congrArg (fun l => l[j]?) hdesc
  dsimp only at hq
  simp only [List.getElem?_map] at hq
  rw [List.getElem?_eq_getElem hj1, List.getElem?_eq_getElem hj] at hq
  simp only [Option.map_some', Option.some.injEq, Prod.mk.injEq] at hq
  rw [List.getD_eq_getElem _ _ hj1, List.getD_eq_getElem _ _ hj]
  exact hq.2

/-- Loading row `i` from the finalized dataset of well-typed rows returns
exactly the values written at row `i`, into the given entry's slots. -/
theorem loadEntry_final (m : Model) (rows : List (List Value)) (i : Nat) (e₀ : Entry)
    (hrows : ∀ row ∈ rows, rowTyped m row = true)
    (hi : i < rows.length)
    (he : e₀.model = (finalReader m rows).model) :
    (finalReader m rows).loadEntry i e₀ = .ok { e₀ with slots := rows.getD i [] } := by
  have hrowmem : rows.getD i [] ∈ rows := by
    rw [List.getD_eq_getElem _ _ hi]
    exact List.getElem_mem hi
  have hrt := hrows _ hrowmem
  have hrlen : (rows.getD i []).length = m.fields.length := rowTyped_length hrt
  have hpoint : ∀ j ∈ List.range (finalReader m rows).model.fields.length,
      decodeValue ((finalReader m rows).model.fields.getD j default).typ
        ((((finalReader m rows).colData.getD j []).drop
            (((finalReader m rows).colTable.getD j []).getD i (0, 0)).1).take
            (((finalReader m rows).colTable.getD j []).getD i (0, 0)).2)
        = some ((rows.getD i []).getD j default) := by
    intro j hj
    rw [List.mem_range, finalReader_fields_length] at hj
    have hdata : (finalReader m rows).colData.getD j []
        = (buildCol (colValues rows j) 0).1 := getD_map_range _ _ _ _ hj
    have htbl : (finalReader m rows).colTable.getD j []
        = (buildCol (colValues rows j) 0).2 := getD_map_range _ _ _ _ hj
    rw [hdata, htbl, finalReader_typ m rows j hj]
    have hslice := buildCol_slice (colValues rows j) [] i (by simpa [colValues] using hi)
    simp only [List.length_nil, List.nil_append] at hslice
    rw [hslice, colValues_getD rows i j hi]
    have htag : ((rows.getD i []).getD j default).tag = (m.fields.getD j default).typ :=
      rowTyped_tag hrt j hj
    rw [← htag, decode_encodeValue]
  have hn : ¬ ((finalReader m rows).nRows ≤ i) := by
    show ¬ (rows.length ≤ i)
    omega
  unfold Reader.loadEntry
  rw [if_neg hn, if_neg (by simp [he])]
  dsimp only
  rw [List.map_congr_left hpoint]
  rw [show (fun j => some ((rows.getD i []).getD j default))
        = some ∘ (fun j => (rows.getD i []).getD j default) from rfl]
  rw [← List.map_map, collectSome_map_some]
  rw [finalReader_fields_length, ← hrlen, range_map_getD]

/-- Destructuring of the write pipeline: creating a Writer on a frozen
Model, filling entries bound to it, finalizing, and opening a Reader
determines the finalized writer, the store, and the reader. -/
theorem pipeline_out (m : Model) (dn sp : String) (es : List Entry)
    (w₀ w₁ w₂ : Writer) (s₀ s₁ s₂ : Store) (r : Reader)
    (hm : m.frozen = true)
    (hb : ∀ e ∈ es, e.model = m)
    (hcr : writerCreate m dn sp = .ok (w₀, s₀))
    (hfill : Writer.fillAll w₀ es s₀ = .ok (w₁, s₁))
    (hfin : Writer.finalize w₁ s₁ = (.ok w₂, s₂))
    (hopen : readerOpen s₂ = .ok r) :
    w₂ = ⟨m, .wFinalized, es.map (fun e => e.slots)⟩ ∧
    s₂ = finalStore m (es.map (fun e => e.slots)) ∧
    r = finalReader m (es.map (fun e => e.slots)) := by
  rw [writerCreate_frozen m dn sp hm] at hcr
  simp only [Except.ok.injEq, Prod.mk.injEq] at hcr
  obtain ⟨hw0, hs0⟩ := hcr
  subst hw0
  subst hs0
  rw [fillAll_run m es [] _ hb] at hfill
  simp only [Except.ok.injEq, Prod.mk.injEq, List.nil_append] at hfill
  obtain ⟨hw1, hs1⟩ := hfill
  subst hw1
  subst hs1
  rw [finalize_run] at hfin
  simp only [Prod.mk.injEq, Except.ok.injEq] at hfin
  obtain ⟨hw2, hs2⟩ := hfin
  subst hw2
  subst hs2
  rw [readerOpen_final] at hopen
  simp only [Except.ok.injEq] at hopen
  subst hopen
  exact ⟨rfl, rfl, rfl⟩

/-- C1: Round-trip correctness: for every frozen Model and every sequence
of well-typed Entries filled in order by a Writer that is then finalized, a
Reader opened on the resulting storage reports `getNEntries` equal to the
number of filled rows and returns, for every row index `i` in range, field
values equal to those written at row `i` (the witness instantiates the
concrete scenario: one integer field `"f"` set to 42, filled once,
`getNEntries = 1`, and row 0 reads back 42). -/
theorem round_trip (m : Model) (dn sp : String) (es : List Entry)
    (w₀ w₁ w₂ : Writer) (s₀ s₁ s₂ : Store) (r : Reader) (i : Nat) (e₀ : Entry)
    (hm : m.frozen = true)
    (hes : ∀ e ∈ es, e.model = m ∧ e.typed = true)
    (hcr : writerCreate m dn sp = .ok (w₀, s₀))
    (hfill : Writer.fillAll w₀ es s₀ = .ok (w₁, s₁))
    (hfin : Writer.finalize w₁ s₁ = (.ok w₂, s₂))
    (hopen : readerOpen s₂ = .ok r)
    (hi : i < es.length)
    (he : e₀.model = r.model) :
    r.getNEntries = es.length ∧
    r.loadEntry i e₀ = .ok { e₀ with slots := (es.getD i default).slots } := by
  obtain ⟨hw2, hs2, hr⟩ := pipeline_out m dn sp es w₀ w₁ w₂ s₀ s₁ s₂ r hm
    (fun e hee => (hes e hee).1) hcr hfill hfin hopen
  subst hr
  constructor
  · simp [Reader.getNEntries, finalReader]
  · have hrows : ∀ row ∈ es.map (fun e => e.slots), rowTyped m row = true := by
      intro row hrow
      obtain ⟨e, hee, rfl⟩ := List.mem_map.mp hrow
      have hee2 := hes e hee
      rw [← hee2.1]
      exact hee2.2
    have hi2 : i < (es.map (fun e => e.slots)).length := by simpa using hi
    have hload := loadEntry_final m (es.map (fun e => e.slots)) i e₀ hrows hi2 he
    rw [hload]
    have hgd : (es.map (fun e => e.slots)).getD i [] = (es.getD i default).slots :=
      mapGetD (fun e : Entry => e.slots) es i default hi
    rw [hgd]

/-- Witness for C1 at the smoke-test scenario: one integer field `"f"` set
to 42, filled once; the reader reports one row, row 0 reads back slot value
42, and `get "f"` on the loaded entry yields 42. -/
theorem round_trip_witness :
    Reader.getNEntries (finalReader fModel [[Value.vInt 42]]) = 1 ∧
    Reader.loadEntry (finalReader fModel [[Value.vInt 42]]) 0
        ⟨(finalReader fModel [[Value.vInt 42]]).model, [Value.vInt 0]⟩
      = .ok ⟨(finalReader fModel [[Value.vInt 42]]).model, [Value.vInt 42]⟩ ∧
    Entry.get ⟨(finalReader fModel [[Value.vInt 42]]).model, [Value.vInt 42]⟩ "f"
      = .ok (Value.vInt 42) := by
  have h := round_trip fModel "ntpl" "test_ntuple_py_write_read.root" [fEntry]
      ⟨fModel, .wOpen, []⟩ ⟨fModel, .wOpen, [[Value.vInt 42]]⟩
      ⟨fModel, .wFinalized, [[Value.vInt 42]]⟩
      ⟨[], none⟩ ⟨[], none⟩ (finalStore fModel [[Value.vInt 42]])
      (finalReader fModel [[Value.vInt 42]]) 0
      ⟨(finalReader fModel [[Value.vInt 42]]).model, [Value.vInt 0]⟩
      rfl (by decide) rfl rfl rfl (readerOpen_final fModel [[Value.vInt 42]])
      (by decide) rfl
  exact ⟨h.1, h.2, rfl⟩

/-- C2: Row count accuracy: after finalize, a Reader opened on the written
dataset has `getNEntries` equal to the number of `fill` calls made on the
Writer before finalize (the entries filled in order). -/
theorem row_count_accuracy (m : Model) (dn sp : String) (es : List Entry)
    (w₀ w₁ w₂ : Writer) (s₀ s₁ s₂ : Store) (r : Reader)
    (hm : m.frozen = true)
    (hb : ∀ e ∈ es, e.model = m)
    (hcr : writerCreate m dn sp = .ok (w₀, s₀))
    (hfill : Writer.fillAll w₀ es s₀ = .ok (w₁, s₁))
    (hfin : Writer.finalize w₁ s₁ = (.ok w₂, s₂))
    (hopen : readerOpen s₂ = .ok r) :
    r.getNEntries = es.length := by
  obtain ⟨hw2, hs2, hr⟩ := pipeline_out m dn sp es w₀ w₁ w₂ s₀ s₁ s₂ r hm
    hb hcr hfill hfin hopen
  subst hr
  simp [Reader.getNEntries, finalReader]

/-- Witness for C2: the one-row smoke-test dataset reports one entry. -/
theorem row_count_accuracy_witness :
    Reader.getNEntries (finalReader fModel [[Value.vInt 42]]) = 1 :=
  row_count_accuracy fModel "ntpl" "test_ntuple_py_write_read.root" [fEntry]
    ⟨fModel, .wOpen, []⟩ ⟨fModel, .wOpen, [[Value.vInt 42]]⟩
    ⟨fModel, .wFinalized, [[Value.vInt 42]]⟩
    ⟨[], none⟩ ⟨[], none⟩ (finalStore fModel [[Value.vInt 42]])
    (finalReader fModel [[Value.vInt 42]])
    rfl (by decide) rfl rfl rfl (readerOpen_final fModel [[Value.vInt 42]])

/-- C3: Schema fidelity: a Reader opened on a dataset written from a frozen
Model returns via `getModel` a frozen Model equal to the originating
Writer's Model in field names, field order, and field types. -/
theorem schema_fidelity (m : Model) (dn sp : String) (es : List Entry)
    (w₀ w₁ w₂ : Writer) (s₀ s₁ s₂ : Store) (r : Reader)
    (hm : m.frozen = true)
    (hb : ∀ e ∈ es, e.model = m)
    (hcr : writerCreate m dn sp = .ok (w₀, s₀))
    (hfill : Writer.fillAll w₀ es s₀ = .ok (w₁, s₁))
    (hfin : Writer.finalize w₁ s₁ = (.ok w₂, s₂))
    (hopen : readerOpen s₂ = .ok r) :
    (Reader.getModel r).frozen = true ∧
    (Reader.getModel r).fields.map (fun f => (f.name, f.typ))
      = m.fields.map (fun f => (f.name, f.typ)) := by
  obtain ⟨hw2, hs2, hr⟩ := pipeline_out m dn sp es w₀ w₁ w₂ s₀ s₁ s₂ r hm
    hb hcr hfill hfin hopen
  subst hr
  exact ⟨finalReader_frozen m _, finalReader_model_desc m _⟩

/-- Witness for C3: the smoke-test reader's model is frozen and describes
the single integer field `"f"`. -/
theorem schema_fidelity_witness :
    (Reader.getModel (finalReader fModel [[Value.vInt 42]])).frozen = true ∧
    (Reader.getModel (finalReader fModel [[Value.vInt 42]])).fields.map
        (fun f => (f.name, f.typ))
      = fModel.fields.map (fun f => (f.name, f.typ)) :=
  schema_fidelity fModel "ntpl" "test_ntuple_py_write_read.root" [fEntry]
    ⟨fModel, .wOpen, []⟩ ⟨fModel, .wOpen, [[Value.vInt 42]]⟩
    ⟨fModel, .wFinalized, [[Value.vInt 42]]⟩
    ⟨[], none⟩ ⟨[], none⟩ (finalStore fModel [[Value.vInt 42]])
    (finalReader fModel [[Value.vInt 42]])
    rfl (by decide) rfl rfl rfl (readerOpen_final fModel [[Value.vInt 42]])

theorem close_run (m : Model) (rows : List (List Value)) (s : Store) :
    Writer.close ⟨m, .wOpen, rows⟩ s = (⟨m, .wFinalized, rows⟩, finalStore m rows) := rfl

/-- C4: Footer-last discipline: a fresh store is incomplete; `fill` never
touches the footer; flushing the data pages writes no footer; and a
successful `finalize` produces exactly the store obtained by writing the
footer after flushing all data pages — so an execution interrupted anywhere
before the footer write (including a storage error during finalize) leaves
the file without a valid footer, detectably incomplete, never a
valid-looking truncated dataset. -/
theorem footer_last_discipline :
    (∀ (m : Model) (dn sp : String) (w₀ : Writer) (s₀ : Store),
        writerCreate m dn sp = .ok (w₀, s₀) → s₀.isComplete = false) ∧
    (∀ (w w' : Writer) (e : Entry) (s s' : Store),
        w.fill e s = .ok (w', s') → s'.footer = s.footer) ∧
    (∀ (w : Writer) (s : Store), (w.flushPages s).footer = s.footer) ∧
    (∀ (w w' : Writer) (s s' : Store), w.finalize s = (.ok w', s') →
        s' = w.writeFooter (w.flushPages s) ∧ s'.isComplete = true) := by
  refine ⟨?_, ?_, ?_, ?_⟩
  · intro m dn sp w₀ s₀ h
    unfold writerCreate at h
    by_cases hm : m.frozen
    · rw [if_pos hm] at h
      simp only [Except.ok.injEq, Prod.mk.injEq] at h
      rw [← h.2]
      rfl
    · rw [if_neg hm] at h
      exact Except.noConfusion h
  · intro w w' e s s' h
    unfold Writer.fill at h
    by_cases h1 : w.st ≠ .wOpen
    · rw [if_pos h1] at h
      exact Except.noConfusion h
    · rw [if_neg h1] at h
      by_cases h2 : e.model ≠ w.model
      · rw [if_pos h2] at h
        exact Except.noConfusion h
      · rw [if_neg h2] at h
        simp only [Except.ok.injEq, Prod.mk.injEq] at h
        rw [← h.2]
  · intro w s
    rfl
  · intro w w' s s' h
    unfold Writer.finalize at h
    cases hst : w.st with
    | wOpen =>
      rw [hst] at h
      simp only [Prod.mk.injEq, Except.ok.injEq] at h
      refine ⟨h.2.symm, ?_⟩
      rw [← h.2]
      rfl
    | wFinalized =>
      rw [hst] at h
      simp at h
    | wClosed =>
      rw [hst] at h
      simp at h

/-- Witness for C4: a freshly created store is incomplete, and finalizing
the smoke-test writer yields the complete footer-bearing store. -/
theorem footer_last_discipline_witness :
    (⟨[], none⟩ : Store).isComplete = false ∧
    (finalStore fModel [[Value.vInt 42]]).isComplete = true := by
  have h := footer_last_discipline
  refine ⟨h.1 fModel "ntpl" "p" ⟨fModel, .wOpen, []⟩ ⟨[], none⟩ rfl, ?_⟩
  have h4 := h.2.2.2 ⟨fModel, .wOpen, [[Value.vInt 42]]⟩
      ⟨fModel, .wFinalized, [[Value.vInt 42]]⟩
      ⟨[], none⟩ (finalStore fModel [[Value.vInt 42]]) rfl
  exact h4.2

/-- C5: Implicit finalize on destruction/close: closing a Writer that is
still `Open` (no explicit finalize call) performs finalize — the resulting
writer is `Finalized`, the store carries the footer — and a Reader can then
open the dataset and read back every filled row. -/
theorem close_implicit_finalize (m : Model) (dn sp : String) (es : List Entry)
    (w₀ w₁ : Writer) (s₀ s₁ : Store)
    (hm : m.frozen = true)
    (hes : ∀ e ∈ es, e.model = m ∧ e.typed = true)
    (hcr : writerCreate m dn sp = .ok (w₀, s₀))
    (hfill : Writer.fillAll w₀ es s₀ = .ok (w₁, s₁)) :
    (w₁.close s₁).1.st = .wFinalized ∧
    ((w₁.close s₁).2).isComplete = true ∧
    ∃ r : Reader, readerOpen (w₁.close s₁).2 = .ok r ∧
      r.getNEntries = es.length ∧
      ∀ i, i < es.length → ∀ e₀ : Entry, e₀.model = r.model →
        r.loadEntry i e₀ = .ok { e₀ with slots := (es.getD i default).slots } := by
  rw [writerCreate_frozen m dn sp hm] at hcr
  simp only [Except.ok.injEq, Prod.mk.injEq] at hcr
  obtain ⟨hw0, hs0⟩ := hcr
  subst hw0
  subst hs0
  rw [fillAll_run m es [] _ (fun e hee => (hes e hee).1)] at hfill
  simp only [Except.ok.injEq, Prod.mk.injEq, List.nil_append] at hfill
  obtain ⟨hw1, hs1⟩ := hfill
  subst hw1
  subst hs1
  rw [close_run]
  refine ⟨rfl, rfl, finalReader m (es.map (fun e => e.slots)),
    readerOpen_final m _, ?_, ?_⟩
  · simp [Reader.getNEntries, finalReader]
  · intro i hi e₀ he
    have hrows : ∀ row ∈ es.map (fun e => e.slots), rowTyped m row = true := by
      intro row hrow
      obtain ⟨e, hee, rfl⟩ := List.mem_map.mp hrow
      have hee2 := hes e hee
      rw [← hee2.1]
      exact hee2.2
    have hi2 : i < (es.map (fun e => e.slots)).length := by simpa using hi
    have hload := loadEntry_final m (es.map (fun e => e.slots)) i e₀ hrows hi2 he
    rw [hload]
    have hgd : (es.map (fun e => e.slots)).getD i [] = (es.getD i default).slots :=
      mapGetD (fun e : Entry => e.slots) es i default hi
    rw [hgd]

/-- Witness for C5: closing the still-open smoke-test writer (as `del
writer` does) finalizes it and the dataset reads back. -/
theorem close_implicit_finalize_witness :
    ((⟨fModel, .wOpen, [[Value.vInt 42]]⟩ : Writer).close ⟨[], none⟩).1.st
      = WState.wFinalized ∧
    (((⟨fModel, .wOpen, [[Value.vInt 42]]⟩ : Writer).close ⟨[], none⟩).2).isComplete
      = true ∧
    ∃ r : Reader,
      readerOpen ((⟨fModel, .wOpen, [[Value.vInt 42]]⟩ : Writer).close ⟨[], none⟩).2
        = .ok r ∧
      r.getNEntries = 1 ∧
      ∀ i, i < 1 → ∀ e₀ : Entry, e₀.model = r.model →
        r.loadEntry i e₀ = .ok { e₀ with slots := ([fEntry].getD i default).slots } :=
  close_implicit_finalize fModel "ntpl" "p" [fEntry]
    ⟨fModel, .wOpen, []⟩ ⟨fModel, .wOpen, [[Value.vInt 42]]⟩ ⟨[], none⟩ ⟨[], none⟩
    rfl (by decide) rfl rfl

/-- C6: Out-of-range load: for every Reader and Entry bound to its Model,
`loadEntry` at a row index at or beyond the row count fails with
`OutOfRange` (witnessed by `loadEntry 1` on a 1-row dataset). -/
theorem load_out_of_range (r : Reader) (i : Nat) (e : Entry)
    (_he : e.model = r.model)
    (hi : r.getNEntries ≤ i) :
    r.loadEntry i e = .error .outOfRange := by
  have hi2 : r.nRows ≤ i := hi
  unfold Reader.loadEntry
  rw [if_pos hi2]

/-- Witness for C6: row index 1 on the one-row smoke-test dataset. -/
theorem load_out_of_range_witness :
    Reader.getNEntries (finalReader fModel [[Value.vInt 42]]) ≤ 1 ∧
    Reader.loadEntry (finalReader fModel [[Value.vInt 42]]) 1
        ⟨(finalReader fModel [[Value.vInt 42]]).model, [Value.vInt 0]⟩
      = .error .outOfRange :=
  ⟨by decide,
   load_out_of_range (finalReader fModel [[Value.vInt 42]]) 1
     ⟨(finalReader fModel [[Value.vInt 42]]).model, [Value.vInt 0]⟩ rfl (by decide)⟩

/-- C7: Double-finalize atomicity: after a successful finalize, a second
finalize call fails with `AlreadyFinalized` and returns the persisted store
unchanged. -/
theorem double_finalize (w w' : Writer) (s s' : Store)
    (h : w.finalize s = (.ok w', s')) :
    Writer.finalize w' s' = (.error .alreadyFinalized, s') := by
  unfold Writer.finalize at h
  cases hst : w.st with
  | wOpen =>
    rw [hst] at h
    simp only [Prod.mk.injEq, Except.ok.injEq] at h
    obtain ⟨hw, hs⟩ := h
    subst hw
    rfl
  | wFinalized =>
    rw [hst] at h
    simp at h
  | wClosed =>
    rw [hst] at h
    simp at h

/-- Witness for C7: finalizing the already finalized smoke-test writer
fails with `AlreadyFinalized` and leaves the store as it was. -/
theorem double_finalize_witness :
    Writer.finalize ⟨fModel, .wFinalized, [[Value.vInt 42]]⟩
        (finalStore fModel [[Value.vInt 42]])
      = (.error .alreadyFinalized, finalStore fModel [[Value.vInt 42]]) :=
  double_finalize ⟨fModel, .wOpen, [[Value.vInt 42]]⟩
    ⟨fModel, .wFinalized, [[Value.vInt 42]]⟩
    ⟨[], none⟩ (finalStore fModel [[Value.vInt 42]]) rfl

/-- C8: Read-order independence: a successful `loadEntry` of row `i` does
not affect any later `loadEntry`: loading row `j < i` into the entry
produced by the first load yields exactly what loading row `j` alone
would. -/
theorem read_order_independence (r : Reader) (i j : Nat) (e e₁ : Entry)
    (_hj : j < i)
    (h : r.loadEntry i e = .ok e₁) :
    r.loadEntry j e₁ = r.loadEntry j e := by
  have hmodel : e₁.model = e.model := by
    unfold Reader.loadEntry at h
    split at h
    · exact Except.noConfusion h
    · split at h
      · exact Except.noConfusion h
      · dsimp only at h
        split at h
        · exact Except.noConfusion h
        · injection h with h2
          rw [← h2]
  unfold Reader.loadEntry
  rw [hmodel]

/-- Witness for C8: on a two-row dataset, loading row 1 and then row 0
yields for row 0 the same result as loading row 0 directly. -/
theorem read_order_independence_witness :
    Reader.loadEntry (finalReader fModel [[Value.vInt 1], [Value.vInt 2]]) 1
        ⟨(finalReader fModel [[Value.vInt 1], [Value.vInt 2]]).model, [Value.vInt 0]⟩
      = .ok ⟨(finalReader fModel [[Value.vInt 1], [Value.vInt 2]]).model, [Value.vInt 2]⟩ ∧
    Reader.loadEntry (finalReader fModel [[Value.vInt 1], [Value.vInt 2]]) 0
        ⟨(finalReader fModel [[Value.vInt 1], [Value.vInt 2]]).model, [Value.vInt 2]⟩
      = Reader.loadEntry (finalReader fModel [[Value.vInt 1], [Value.vInt 2]]) 0
          ⟨(finalReader fModel [[Value.vInt 1], [Value.vInt 2]]).model, [Value.vInt 0]⟩ := by
  have h1 : Reader.loadEntry (finalReader fModel [[Value.vInt 1], [Value.vInt 2]]) 1
      ⟨(finalReader fModel [[Value.vInt 1], [Value.vInt 2]]).model, [Value.vInt 0]⟩
    = .ok ⟨(finalReader fModel [[Value.vInt 1], [Value.vInt 2]]).model, [Value.vInt 2]⟩ := by
    rfl
  exact ⟨h1, read_order_independence _ 1 0 _ _ (by decide) h1⟩

end RNT

namespace RooFitPy

/-- C9: `DataError(None)` behaves identically to `DataError("None")`: the
`None` argument is mapped to the string `"None"` before it is resolved
against `ROOT.RooAbsData.ErrorType`, so both calls produce the same
resolved value (hence the same `RooCmdArg`); and any string that is not an
`ErrorType` member name raises `ValueError`. -/
theorem dataerror_none_equiv :
    DataError PyArg.pyNone = DataError (PyArg.pyStr "None") ∧
    ∀ s : String, errorTypeFromName s = Option.none →
      DataError (PyArg.pyStr s) = .error (.valueError dataErrorMessage) := by
  constructor
  · rfl
  · intro s h
    simp [DataError, normalizeDataError, h]

/-- Witness for C9: the two calls agree at `None`, and the unsupported name
`"Bogus"` raises `ValueError`. -/
theorem dataerror_none_equiv_witness :
    DataError PyArg.pyNone = DataError (PyArg.pyStr "None") ∧
    DataError (PyArg.pyStr "Bogus") = .error (.valueError dataErrorMessage) :=
  ⟨dataerror_none_equiv.1, dataerror_none_equiv.2 "Bogus" (by rfl)⟩

theorem lookup_extract {α : Type} (w : α) (k₁ k₂ : List (String × α))
    (h1 : List.lookup "what" k₁ = Option.none) :
    List.lookup "what" (k₁ ++ ("what", w) :: k₂) = some w ∧
    (k₁ ++ ("what", w) :: k₂).eraseP (fun p => p.1 == "what") = k₁ ++ k₂ := by
  induction k₁ with
  | nil =>
    constructor
    · simp [List.lookup_cons]
    · simp
  | cons a k ih =>
    obtain ⟨ak, av⟩ := a
    rw [List.lookup_cons] at h1
    cases hb : ("what" == ak) with
    | true =>
      rw [hb] at h1
      exact absurd h1 (by simp)
    | false =>
      rw [hb] at h1
      obtain ⟨ihl, ihe⟩ := ih h1
      have hak : ((ak, av).1 == "what") = false := by
        simp only [beq_eq_false_iff_ne] at hb ⊢
        exact fun hc => hb hc.symm
      constructor
      · rw [List.cons_append, List.lookup_cons, hb]
        exact ihl
      · rw [List.cons_append, List.eraseP_cons, hak, cond_false, ihe, List.cons_append]

theorem lookup_append_none {α : Type} (k₁ k₂ : List (String × α))
    (h1 : List.lookup "what" k₁ = Option.none)
    (h2 : List.lookup "what" k₂ = Option.none) :
    List.lookup "what" (k₁ ++ k₂) = Option.none := by
  induction k₁ with
  | nil => simpa using h2
  | cons a k ih =>
    obtain ⟨ak, av⟩ := a
    rw [List.lookup_cons] at h1
    rw [List.cons_append, List.lookup_cons]
    cases hb : ("what" == ak) with
    | true =>
      rw [hb] at h1
      exact absurd h1 (by simp)
    | false =>
      rw [hb] at h1
      exact ih h1

/-- C10: calling `Format` with the keyword argument `what` returns the same
result as the positional call with the keyword's value prepended to the
positional arguments: the `what` keyword is extracted from the keyword
arguments (wherever it sits in the dict) and prepended before delegation. -/
theorem format_what_keyword {α : Type} (w : α) (args : List α)
    (k₁ k₂ : List (String × α))
    (h1 : List.lookup "what" k₁ = Option.none)
    (h2 : List.lookup "what" k₂ = Option.none) :
    Format args (k₁ ++ ("what", w) :: k₂) = Format (w :: args) (k₁ ++ k₂) := by
  obtain ⟨hl, he⟩ := lookup_extract w k₁ k₂ h1
  have hn : List.lookup "what" (k₁ ++ k₂) = Option.none := lookup_append_none k₁ k₂ h1 h2
  unfold Format
  rw [hl, he, hn]

/-- Witness for C10: a concrete keyword call equals its positional
counterpart. -/
theorem format_what_keyword_witness :
    Format [1] [("a", 5), ("what", 9), ("b", 7)] = Format [9, 1] [("a", 5), ("b", 7)] :=
  format_what_keyword 9 [1] [("a", 5)] [("b", 7)] (by rfl) (by rfl)

end RooFitPy
